import Mathlib

/-!
# ghr: asset discovery, reconciliation and transfer (asset.go)

A shallow embedding of `asset.go`.  Everything the file obtains from outside
(the filesystem, the go-github client, the helpers of this repository that
live in other files) is a field of an explicit environment record, so each
function below is a pure function of its arguments and of the answers of
its environment.

Conventions
* a Go `error` is identified with its message; `none` is the nil error;
* a Go `int` that is only copied and compared is an `Int`;
* a nil-pointer dereference is the outcome `GoResult.panicked`;
* external calls performed by a function are recorded, in program order,
  in a list of `Event`s;
* the body of a goroutine is a `Run`: the steps it makes until it returns
  or blocks for good at a channel operation, the rest of the program
  deciding which channel operations complete.
-/

set_option autoImplicit false

namespace Ghr

/-! ## Data model -/

/-- Go errors, identified with the text of their message. -/
abbrev Error := String

/-- The constant `AssetIDNotFound`, the default value of `Asset.ID`. -/
def AssetIDNotFound : Int := 0

/-- The struct `Asset`: the uploading target object. -/
structure Asset where
  Path : String
  Name : String
  ID : Int
deriving DecidableEq, Repr

/-- The fields of `GitHubAPIOpts` that `asset.go` reads. -/
structure GitHubAPIOpts where
  OwnerName : String
  RepoName : String
  ID : Int
deriving DecidableEq, Repr

/-- The go-github struct `ReleaseAsset`; both fields read by `asset.go` are
pointers, `none` being the nil pointer. -/
structure ReleaseAsset where
  ID : Option Int
  Name : Option String
deriving DecidableEq, Repr

/-- The go-github response handed to the status checks. -/
structure Response where
  StatusCode : Int
deriving DecidableEq, Repr

/-- The go-github struct `UploadOptions`. -/
structure UploadOptions where
  Name : String
deriving DecidableEq, Repr

/-- An open file handle as returned by `os.Open`, identified by its path. -/
structure File where
  Name : String
deriving DecidableEq, Repr

/-- What kind of object an `os.FileInfo` describes. `os.Stat` follows
symbolic links, so the kinds are: regular file, directory, anything else
(device, pipe, socket). -/
inductive FileMode where
  | regular
  | dir
  | irregular
deriving DecidableEq, Repr

/-- The part of `os.FileInfo` that `asset.go` reads. -/
structure FileInfo where
  Size : Int
  Mode : FileMode
deriving DecidableEq, Repr

/-- The method `FileInfo.IsDir`. -/
def FileInfo.IsDir (fi : FileInfo) : Bool :=
  decide (fi.Mode = FileMode.dir)

/-- The method `FileMode.IsRegular` applied to the mode of a file-info. -/
def FileInfo.IsRegular (fi : FileInfo) : Bool :=
  decide (fi.Mode = FileMode.regular)

/-- How a Go call ends: it returns a value, or it panics. -/
inductive GoResult (α : Type) where
  | returned (val : α)
  | panicked
deriving DecidableEq, Repr

/-- The filesystem as `asset.go` observes it: the answers of `os.Stat`,
`os.Open`, `filepath.Glob` and `filepath.Base`. -/
structure FS where
  Stat : String → Except Error FileInfo
  Open : String → Except Error File
  Glob : String → Except Error (List String)
  Base : String → String

/-- The collaborators of the transfer functions: the helpers of this
repository defined outside `asset.go` and the go-github calls. The type
`Client` of the API client is left abstract. -/
structure API (Client : Type) where
  NewOAuthedClient : GitHubAPIOpts → Client
  ExtractUploadURL : GitHubAPIOpts → String
  SetUploadURL : Client → String → Client
  CheckStatusOK : Response → Option Error
  CheckStatusCreated : Response → Option Error
  CheckStatusNoContent : Response → Option Error
  ListReleaseAssets : Client → String → String → Int → List ReleaseAsset × Response × Option Error
  DeleteReleaseAsset : Client → String → String → Int → Response × Option Error
  UploadReleaseAsset : Client → String → String → Int → UploadOptions → File → Response × Option Error

/-- Externally visible steps, in program order. -/
inductive Event where
  | semAcquire
  | semRelease
  | wgDone
  | sendOut (msg : String)
  | sendErr (msg : String)
  | callDeleteAsset (asset : Asset)
  | callUploadAsset (asset : Asset)
  | osStat (path : String)
  | printf (msg : String)
  | osOpen (path : String)
  | deleteReleaseAsset (owner repo : String) (id : Int)
  | uploadReleaseAsset (owner repo : String) (id : Int) (opts : UploadOptions) (file : File)
deriving DecidableEq, Repr

/-! ## GetLocalAssets -/

/-- The loop `for _, f := range files` of `GetLocalAssets`, started with the
assets collected so far. `os.Stat` returns a nil file-info together with its
error, the error is discarded, and `f.IsDir()` on the nil file-info panics:
that is the result `none`. -/
def localAssetsLoop (fs : FS) : List String → List Asset → Option (List Asset)
  | [], assets => some assets
  | f :: rest, assets =>
    match fs.Stat f with
    | Except.error _ => none
    | Except.ok fi =>
      if fi.IsDir then localAssetsLoop fs rest assets
      else localAssetsLoop fs rest (assets ++ [Asset.mk f (fs.Base f) 0])

/-- The function `GetLocalAssets`: the pair `(assets, err)` it returns, or a panic. -/
def GetLocalAssets (fs : FS) (path : String) : GoResult (List Asset × Option Error) :=
  match fs.Stat path with
  | Except.error err => GoResult.returned ([], some err)
  | Except.ok fInfo =>
    if !fInfo.IsDir then
      GoResult.returned ([] ++ [Asset.mk path (fs.Base path) 0], none)
    else
      match fs.Glob (path ++ "/*") with
      | Except.error err => GoResult.returned ([], some err)
      | Except.ok files =>
        match localAssetsLoop fs files [] with
        | none => GoResult.panicked
        | some assets =>
          if assets.length = 0 then
            GoResult.returned (assets, some "assets to upload are not found")
          else GoResult.returned (assets, none)

/-! ## UploadAsset and DeleteAsset -/

/-- The function `UploadAsset`: the error it returns (`none` is nil) and the
external calls it made. -/
def UploadAsset {Client : Type} (fs : FS) (api : API Client) (asset : Asset)
    (apiOpts : GitHubAPIOpts) : Option Error × List Event :=
  let client := api.NewOAuthedClient apiOpts
  let client := api.SetUploadURL client (api.ExtractUploadURL apiOpts)
  match fs.Stat asset.Path with
  | Except.error _ =>
    (some ("failed to get file info: " ++ asset.Name ++ "\n"), [Event.osStat asset.Path])
  | Except.ok fileinfo =>
    if fileinfo.Size = 0 then
      (none, [Event.osStat asset.Path,
        Event.printf ("Warning: GitHub do not allow empty files to upload: " ++ asset.Name
          ++ " (skipping)\n")])
    else
      match fs.Open asset.Path with
      | Except.error _ =>
        (some ("failed to open file: " ++ asset.Name ++ "\n"),
          [Event.osStat asset.Path, Event.osOpen asset.Path])
      | Except.ok file =>
        let opts := UploadOptions.mk asset.Name
        let events := [Event.osStat asset.Path, Event.osOpen asset.Path,
          Event.uploadReleaseAsset apiOpts.OwnerName apiOpts.RepoName apiOpts.ID opts file]
        match api.UploadReleaseAsset client apiOpts.OwnerName apiOpts.RepoName apiOpts.ID opts file with
        | (_, some err) => (some err, events)
        | (res, none) =>
          match api.CheckStatusCreated res with
          | some err => (some err, events)
          | none => (none, events)

/-- The function `DeleteAsset`: the error it returns (`none` is nil) and the
external calls it made. -/
def DeleteAsset {Client : Type} (api : API Client) (asset : Asset)
    (apiOpts : GitHubAPIOpts) : Option Error × List Event :=
  let client := api.NewOAuthedClient apiOpts
  let events := [Event.deleteReleaseAsset apiOpts.OwnerName apiOpts.RepoName asset.ID]
  match api.DeleteReleaseAsset client apiOpts.OwnerName apiOpts.RepoName asset.ID with
  | (_, some err) => (some err, events)
  | (res, none) =>
    match api.CheckStatusNoContent res with
    | some err => (some err, events)
    | none => (none, events)

/-! ## The per-asset workflow of UploadAssets -/

/-- The fields of `GhrOpts` that `asset.go` reads. -/
structure GhrOpts where
  Parallel : Int
  Replace : Bool
deriving DecidableEq, Repr

/-- The verb `%15s` of `fmt.Sprintf`: the string, padded with spaces on the
left to fifteen characters. -/
def pad15 (s : String) : String :=
  String.mk (List.replicate (15 - s.length) ' ') ++ s

/-- What the rest of the program grants to one goroutine of `UploadAssets`
at the channel operations where it can block for good: a free slot of the
semaphore at `semaphore <- 1`, and a receiver for each of its sends on
`outCh` and `errCh`. -/
structure Peers where
  semAdmits : Bool
  recvDeleting : Bool
  recvDeleteErr : Bool
  recvUploading : Bool
  recvUploadErr : Bool
deriving DecidableEq, Repr

/-- A run of a goroutine: the steps it has made, in order, and whether it is
still going. `going = false` says it is blocked for good at a channel
operation; at the end of the body `going = true` says the body returned. -/
structure Run where
  events : List Event
  going : Bool
deriving DecidableEq, Repr

/-- Steps that cannot block, made only by a goroutine that is still going. -/
def Run.step (r : Run) (es : List Event) : Run :=
  if r.going then Run.mk (r.events ++ es) true else r

/-- A channel operation: a goroutine that is still going makes the step `e`
when the operation completes, and is blocked for good when it does not. -/
def Run.chanOp (r : Run) (completes : Bool) (e : Event) : Run :=
  if r.going then
    (if completes then Run.mk (r.events ++ [e]) true else Run.mk r.events false)
  else r

/-- The body of the goroutine that `UploadAssets` starts for one asset.
The send `semaphore <- 1` on the channel of capacity `ghrOpts.Parallel`
completes only when the capacity is positive and a slot gets free: with
capacity 0 nothing ever receives from the channel before sending to it.
Each send on the unbuffered `outCh` and `errCh` completes only when it is
received. The receive `<-semaphore` finds the goroutine's own token and
completes. The deferred `wg.Done()` runs when the body returns. With a
negative capacity `make` panics in `UploadAssets` before any goroutine is
started, and there is no step either. -/
def uploadWorker {Client : Type} (fs : FS) (api : API Client) (ghrOpts : GhrOpts)
    (apiOpts : GitHubAPIOpts) (asset : Asset) (peers : Peers) : Run :=
  let r := Run.mk [] true
  let r := r.chanOp (decide (0 < ghrOpts.Parallel) && peers.semAdmits) Event.semAcquire
  let r :=
    if ghrOpts.Replace && asset.ID != AssetIDNotFound then
      let r := r.chanOp peers.recvDeleting
        (Event.sendOut ("--> Deleting: " ++ pad15 asset.Name ++ "\n"))
      let r := r.step ([Event.callDeleteAsset asset] ++ (DeleteAsset api asset apiOpts).2)
      match (DeleteAsset api asset apiOpts).1 with
      | some err =>
        r.chanOp peers.recvDeleteErr
          (Event.sendErr ("delete " ++ asset.Name ++ " error: " ++ err))
      | none => r
    else r
  let r := r.chanOp peers.recvUploading
    (Event.sendOut ("--> Uploading: " ++ pad15 asset.Name ++ "\n"))
  let r := r.step ([Event.callUploadAsset asset] ++ (UploadAsset fs api asset apiOpts).2)
  let r :=
    match (UploadAsset fs api asset apiOpts).1 with
    | some err =>
      r.chanOp peers.recvUploadErr
        (Event.sendErr ("upload " ++ asset.Name ++ " error: " ++ err))
    | none => r
  let r := r.step [Event.semRelease]
  r.step [Event.wgDone]

/-- An event is the delete request that `DeleteAsset` sends. -/
def Event.isDeleteRequest : Event → Bool
  | Event.deleteReleaseAsset _ _ _ => true
  | _ => false

/-- An event is the `os.Stat` with which `UploadAsset` starts. -/
def Event.isStat : Event → Bool
  | Event.osStat _ => true
  | _ => false

/-- An event is a call of `DeleteAsset`. -/
def Event.isDeleteCall : Event → Bool
  | Event.callDeleteAsset _ => true
  | _ => false

/-- An event is a call of `UploadAsset`. -/
def Event.isUploadCall : Event → Bool
  | Event.callUploadAsset _ => true
  | _ => false

/-- An event is a call of `DeleteAsset` or of `UploadAsset`. -/
def Event.isCall (e : Event) : Bool :=
  e.isDeleteCall || e.isUploadCall

/-- An event is the first thing one of the two calls does outside the
program: the delete request of `DeleteAsset`, the `os.Stat` of `UploadAsset`. -/
def Event.isEffect (e : Event) : Bool :=
  e.isDeleteRequest || e.isStat

/-- An event opens a file or performs the upload request. -/
def Event.isOpenOrUpload : Event → Bool
  | Event.osOpen _ => true
  | Event.uploadReleaseAsset _ _ _ _ _ => true
  | _ => false

/-! ## FetchAssetID -/

/-- The memory holding the `Asset` cells: the cell at each address. A slice
`[]*Asset` is a list of pointers into it; several of them may hold the same
address, and a write through one is seen through the others. -/
abbrev Heap := Nat → Asset

/-- A pointer to an `Asset`: `none` is nil, `some p` the address `p`. -/
abbrev AssetPtr := Option Nat

/-- The inner loop `for _, a := range assets` of `FetchAssetID`, for one
remote entry `ra`. Dereferencing a nil `ra.Name`, a nil `a` or a nil `ra.ID`
panics: that is the result `none`. -/
def fetchInner (ra : ReleaseAsset) : List AssetPtr → Heap → Option Heap
  | [], h => some h
  | a :: rest, h =>
    match ra.Name, a with
    | none, _ => none
    | some _, none => none
    | some raName, some p =>
      if raName = (h p).Name then
        match ra.ID with
        | none => none
        | some raID => fetchInner ra rest (Function.update h p (Asset.mk (h p).Path (h p).Name raID))
      else fetchInner ra rest h

/-- The outer loop `for _, ra := range releasedAssets` of `FetchAssetID`. -/
def fetchOuter : List ReleaseAsset → List AssetPtr → Heap → Option Heap
  | [], _, h => some h
  | ra :: rest, assets, h =>
    match fetchInner ra assets h with
    | none => none
    | some h1 => fetchOuter rest assets h1

/-- The function `FetchAssetID` on the slice of pointers `assets` and the
memory `h`: the error it returns together with the memory it leaves, or a
panic. -/
def FetchAssetID {Client : Type} (api : API Client) (assets : List AssetPtr)
    (apiOpts : GitHubAPIOpts) (h : Heap) : GoResult (Option Error × Heap) :=
  let client := api.NewOAuthedClient apiOpts
  match api.ListReleaseAssets client apiOpts.OwnerName apiOpts.RepoName apiOpts.ID with
  | (_, _, some err) => GoResult.returned (some err, h)
  | (releasedAssets, res, none) =>
    match api.CheckStatusOK res with
    | some err => GoResult.returned (some err, h)
    | none =>
      match fetchOuter releasedAssets assets h with
      | none => GoResult.panicked
      | some h1 => GoResult.returned (none, h1)

/-! ## Concrete inputs used in the examples -/

/-- A filesystem: directory `rel` holding the 1024-byte file `rel/a.tar.gz`,
the empty file `rel/b.txt` and the subdirectory `rel/sub`; the empty
directory `empty`; nothing else. -/
def fsRel : FS where
  Stat := fun p =>
    if p = "rel" then Except.ok (FileInfo.mk 4096 FileMode.dir)
    else if p = "rel/a.tar.gz" then Except.ok (FileInfo.mk 1024 FileMode.regular)
    else if p = "rel/b.txt" then Except.ok (FileInfo.mk 0 FileMode.regular)
    else if p = "rel/sub" then Except.ok (FileInfo.mk 4096 FileMode.dir)
    else if p = "empty" then Except.ok (FileInfo.mk 4096 FileMode.dir)
    else Except.error "no such file or directory"
  Open := fun p => Except.ok (File.mk p)
  Glob := fun pat =>
    if pat = "rel/*" then Except.ok ["rel/a.tar.gz", "rel/b.txt", "rel/sub"]
    else Except.ok []
  Base := fun p =>
    if p = "rel/a.tar.gz" then "a.tar.gz"
    else if p = "rel/b.txt" then "b.txt"
    else p

/-- A remote that lists `listing` and accepts every request. -/
def apiOK (listing : List ReleaseAsset) : API Unit where
  NewOAuthedClient := fun _ => ()
  ExtractUploadURL := fun _ => "https://uploads.example/"
  SetUploadURL := fun c _ => c
  CheckStatusOK := fun _ => none
  CheckStatusCreated := fun _ => none
  CheckStatusNoContent := fun _ => none
  ListReleaseAssets := fun _ _ _ _ => (listing, Response.mk 200, none)
  DeleteReleaseAsset := fun _ _ _ _ => (Response.mk 204, none)
  UploadReleaseAsset := fun _ _ _ _ _ _ => (Response.mk 201, none)

/-- A remote whose listing call fails. -/
def apiListFails : API Unit where
  NewOAuthedClient := fun _ => ()
  ExtractUploadURL := fun _ => "https://uploads.example/"
  SetUploadURL := fun c _ => c
  CheckStatusOK := fun _ => none
  CheckStatusCreated := fun _ => none
  CheckStatusNoContent := fun _ => none
  ListReleaseAssets := fun _ _ _ _ => ([], Response.mk 500, some "server error")
  DeleteReleaseAsset := fun _ _ _ _ => (Response.mk 204, none)
  UploadReleaseAsset := fun _ _ _ _ _ _ => (Response.mk 201, none)

/-- A remote whose listing call succeeds with a status the check rejects. -/
def apiStatusFails : API Unit where
  NewOAuthedClient := fun _ => ()
  ExtractUploadURL := fun _ => "https://uploads.example/"
  SetUploadURL := fun c _ => c
  CheckStatusOK := fun r => if r.StatusCode = 200 then none else some "unexpected status"
  CheckStatusCreated := fun _ => none
  CheckStatusNoContent := fun _ => none
  ListReleaseAssets := fun _ _ _ _ => ([ReleaseAsset.mk (some 7) (some "a.tar.gz")], Response.mk 404, none)
  DeleteReleaseAsset := fun _ _ _ _ => (Response.mk 204, none)
  UploadReleaseAsset := fun _ _ _ _ _ _ => (Response.mk 201, none)

/-- A listing in which two entries carry the name `a.tar.gz`. -/
def listingTwice : List ReleaseAsset :=
  [ReleaseAsset.mk (some 7) (some "a.tar.gz"), ReleaseAsset.mk (some 3) (some "other.zip"),
    ReleaseAsset.mk (some 9) (some "a.tar.gz")]

/-- A listing whose entry named `a.tar.gz` carries the ID 0. -/
def listingZero : List ReleaseAsset :=
  [ReleaseAsset.mk (some 0) (some "a.tar.gz")]

/-- The release the examples act on. -/
def optsRel : GitHubAPIOpts := GitHubAPIOpts.mk "owner" "repo" 1

/-- A memory in which address 0 holds `a.tar.gz`, every other address
`b.txt`, all with the default ID. -/
def heapRel : Heap := fun p =>
  if p = 0 then Asset.mk "rel/a.tar.gz" "a.tar.gz" 0 else Asset.mk "rel/b.txt" "b.txt" 0

/-- The memory `heapRel` after the ID of the cell at address 0 has been
written twice, first 7, then 9. -/
def heapTwice : Heap :=
  Function.update (Function.update heapRel 0 (Asset.mk "rel/a.tar.gz" "a.tar.gz" 7)) 0
    (Asset.mk "rel/a.tar.gz" "a.tar.gz" 9)

/-- A remote that refuses every delete request. -/
def apiDeleteFails : API Unit where
  NewOAuthedClient := fun _ => ()
  ExtractUploadURL := fun _ => "https://uploads.example/"
  SetUploadURL := fun c _ => c
  CheckStatusOK := fun _ => none
  CheckStatusCreated := fun _ => none
  CheckStatusNoContent := fun r => if r.StatusCode = 204 then none else some "unexpected status"
  ListReleaseAssets := fun _ _ _ _ => ([], Response.mk 200, none)
  DeleteReleaseAsset := fun _ _ _ _ => (Response.mk 404, some "404 Not Found")
  UploadReleaseAsset := fun _ _ _ _ _ _ => (Response.mk 201, none)

/-- A filesystem: directory `d` holding the regular file `d/a.txt` and the
named pipe `d/pipe`; nothing else. -/
def fsFifo : FS where
  Stat := fun p =>
    if p = "d" then Except.ok (FileInfo.mk 4096 FileMode.dir)
    else if p = "d/a.txt" then Except.ok (FileInfo.mk 10 FileMode.regular)
    else if p = "d/pipe" then Except.ok (FileInfo.mk 0 FileMode.irregular)
    else Except.error "no such file or directory"
  Open := fun p => Except.ok (File.mk p)
  Glob := fun pat => if pat = "d/*" then Except.ok ["d/a.txt", "d/pipe"] else Except.ok []
  Base := fun p => if p = "d/a.txt" then "a.txt" else if p = "d/pipe" then "pipe" else p

/-- A filesystem: the empty directory `a[`, and nothing else. The pattern
`a[/*` is malformed, and `filepath.Glob` answers it with its error. -/
def fsBadPat : FS where
  Stat := fun p =>
    if p = "a[" then Except.ok (FileInfo.mk 4096 FileMode.dir)
    else Except.error "no such file or directory"
  Open := fun p => Except.ok (File.mk p)
  Glob := fun pat => if pat = "a[/*" then Except.error "syntax error in pattern" else Except.ok []
  Base := fun p => p

/-- Peers that grant everything: a free slot and a receiver for each send. -/
def peersAll : Peers := Peers.mk true true true true true

/-! ## Vocabulary of the statements -/

/-- The path can be stat'ed and is a directory. -/
def statIsDir (fs : FS) (f : String) : Bool :=
  match fs.Stat f with
  | Except.ok fi => fi.IsDir
  | Except.error _ => false

/-- The path can be stat'ed and is a regular file. -/
def statIsRegular (fs : FS) (f : String) : Bool :=
  match fs.Stat f with
  | Except.ok fi => fi.IsRegular
  | Except.error _ => false

/-- The steps `es` when `b` holds, no step otherwise. -/
def seg : Bool → List Event → List Event
  | true, es => es
  | false, _ => []

/-- The asset that `GetLocalAssets` builds for the file `f`. -/
def localAsset (fs : FS) (f : String) : Asset :=
  Asset.mk f (fs.Base f) 0

/-! ## GetLocalAssets: proofs -/

theorem localAssetsLoop_eq (fs : FS) (files : List String) (acc : List Asset)
    (h : ∀ f ∈ files, ∃ fi, fs.Stat f = Except.ok fi) :
    localAssetsLoop fs files acc
      = some (acc ++ (files.filter (fun f => !statIsDir fs f)).map (localAsset fs)) := by
  induction files generalizing acc with
  | nil => simp [localAssetsLoop]
  | cons f rest ih =>
    obtain ⟨fi, hfi⟩ := h f (List.mem_cons_self _ _)
    have hrest : ∀ g ∈ rest, ∃ fi, fs.Stat g = Except.ok fi :=
      fun g hg => h g (List.mem_cons_of_mem _ hg)
    simp only [localAssetsLoop, hfi]
    by_cases hd : fi.IsDir = true
    · simp [hd, ih _ hrest, statIsDir, hfi]
    · simp [hd, ih _ hrest, statIsDir, hfi, localAsset]

theorem statIsRegular_not_dir (fs : FS) (f : String) (h : statIsRegular fs f = true) :
    statIsDir fs f = false := by
  unfold statIsRegular at h
  unfold statIsDir
  cases hs : fs.Stat f with
  | error e => rfl
  | ok fi =>
    rw [hs] at h
    simp only [FileInfo.IsRegular, decide_eq_true_eq] at h
    simp [FileInfo.IsDir, h]

theorem statIsRegular_ok (fs : FS) (f : String) (h : statIsRegular fs f = true) :
    ∃ fi, fs.Stat f = Except.ok fi := by
  unfold statIsRegular at h
  cases hs : fs.Stat f with
  | error e => rw [hs] at h; cases h
  | ok fi => exact ⟨fi, rfl⟩

theorem statIsDir_ok (fs : FS) (f : String) (h : statIsDir fs f = true) :
    ∃ fi, fs.Stat f = Except.ok fi := by
  unfold statIsDir at h
  cases hs : fs.Stat f with
  | error e => rw [hs] at h; cases h
  | ok fi => exact ⟨fi, rfl⟩

theorem filter_notDir_eq_regular (fs : FS) (files : List String)
    (hkinds : ∀ f ∈ files, statIsRegular fs f = true ∨ statIsDir fs f = true) :
    files.filter (fun f => !statIsDir fs f) = files.filter (statIsRegular fs) := by
  apply List.filter_congr
  intro f hf
  rcases hkinds f hf with hr | hd
  · simp [hr, statIsRegular_not_dir fs f hr]
  · cases hr : statIsRegular fs f with
    | false => simp [hd]
    | true => rw [statIsRegular_not_dir fs f hr] at hd; cases hd

theorem length_notDir_add_dir (fs : FS) (files : List String) :
    (files.filter (fun f => !statIsDir fs f)).length + (files.filter (statIsDir fs)).length
      = files.length := by
  induction files with
  | nil => rfl
  | cons f rest ih =>
    cases hd : statIsDir fs f with
    | false =>
      simp only [List.filter_cons, hd, Bool.not_false, if_true, Bool.false_eq_true, if_false,
        List.length_cons]
      omega
    | true =>
      simp only [List.filter_cons, hd, Bool.not_true, if_true, Bool.false_eq_true, if_false,
        List.length_cons]
      omega

/-- C3, as stated, fails: the enumeration of the directory `d` of `fsFifo`
yields one regular file, no subdirectory, and a named pipe; `GetLocalAssets`
returns without error two assets, the second one for the pipe. -/
theorem getLocalAssets_directory_counterexample :
    fsFifo.Glob ("d" ++ "/*") = Except.ok ["d/a.txt", "d/pipe"]
    ∧ (["d/a.txt", "d/pipe"].filter (statIsRegular fsFifo)).length = 1
    ∧ (["d/a.txt", "d/pipe"].filter (statIsDir fsFifo)).length = 0
    ∧ GetLocalAssets fsFifo "d"
        = GoResult.returned ([Asset.mk "d/a.txt" "a.txt" 0, Asset.mk "d/pipe" "pipe" 0], none)
    ∧ [Asset.mk "d/a.txt" "a.txt" 0, Asset.mk "d/pipe" "pipe" 0].length ≠ 1 := by
  refine ⟨by rfl, by decide, by decide, by decide, by decide⟩

/-- C3, amended: when the path is a directory whose enumeration (the glob
of `path/*`) succeeds, every entry of it can be stat'ed, `k ≥ 1` entries are
not directories and `j` are directories, `GetLocalAssets` returns without
error exactly `k` assets: in enumeration order, one for each entry that is
not a directory, so one for each regular file and one for each other
non-directory entry; none for a subdirectory and none for a path outside the
enumeration; the `j` subdirectories are the entries left out. When the
enumeration holds regular files and directories only, the assets are those
of the regular files. -/
theorem getLocalAssets_directory (fs : FS) (path : String) (fInfo : FileInfo)
    (files : List String) (k j : Nat)
    (hstat : fs.Stat path = Except.ok fInfo) (hdir : fInfo.IsDir = true)
    (hglob : fs.Glob (path ++ "/*") = Except.ok files)
    (hall : ∀ f ∈ files, ∃ fi, fs.Stat f = Except.ok fi)
    (hk : (files.filter (fun f => !statIsDir fs f)).length = k)
    (hj : (files.filter (statIsDir fs)).length = j)
    (hpos : 1 ≤ k) :
    ∃ assets : List Asset,
      GetLocalAssets fs path = GoResult.returned (assets, none)
      ∧ assets.length = k
      ∧ assets.length + j = files.length
      ∧ assets = (files.filter (fun f => !statIsDir fs f)).map (localAsset fs)
      ∧ (∀ a ∈ assets, a.Path ∈ files ∧ statIsDir fs a.Path = false)
      ∧ (∀ f ∈ files, statIsRegular fs f = true → localAsset fs f ∈ assets)
      ∧ ((∀ f ∈ files, statIsRegular fs f = true ∨ statIsDir fs f = true) →
          assets = (files.filter (statIsRegular fs)).map (localAsset fs)) := by
  have hloop := localAssetsLoop_eq fs files [] hall
  rw [List.nil_append] at hloop
  have hlen : ((files.filter (fun f => !statIsDir fs f)).map (localAsset fs)).length = k := by
    rw [List.length_map, hk]
  refine ⟨(files.filter (fun f => !statIsDir fs f)).map (localAsset fs), ?_, hlen, ?_, rfl,
    ?_, ?_, ?_⟩
  · have hne : ¬ ((files.filter (fun f => !statIsDir fs f)).map (localAsset fs)).length = 0 := by
      rw [hlen]; omega
    simp only [GetLocalAssets, hstat, hdir, hglob, hloop, Bool.not_true, Bool.false_eq_true,
      if_false, hne]
  · rw [hlen, ← hk, ← hj]
    exact length_notDir_add_dir fs files
  · intro a ha
    rw [List.mem_map] at ha
    obtain ⟨f, hf, rfl⟩ := ha
    rw [List.mem_filter] at hf
    refine ⟨hf.1, ?_⟩
    have h2 := hf.2
    simp only [Bool.not_eq_true'] at h2
    exact h2
  · intro f hf hreg
    rw [List.mem_map]
    refine ⟨f, ?_, rfl⟩
    rw [List.mem_filter]
    refine ⟨hf, ?_⟩
    rw [statIsRegular_not_dir fs f hreg]
    rfl
  · intro hkinds
    rw [filter_notDir_eq_regular fs files hkinds]

/-- Witness of C3 (amended): the directory `rel` of `fsRel`, which holds two
regular files and one subdirectory. -/
theorem getLocalAssets_directory_witness :
    ∃ assets : List Asset,
      GetLocalAssets fsRel "rel" = GoResult.returned (assets, none)
      ∧ assets.length = 2
      ∧ assets.length + 1 = ["rel/a.tar.gz", "rel/b.txt", "rel/sub"].length
      ∧ assets = (["rel/a.tar.gz", "rel/b.txt", "rel/sub"].filter
          (fun f => !statIsDir fsRel f)).map (localAsset fsRel)
      ∧ (∀ a ∈ assets, a.Path ∈ ["rel/a.tar.gz", "rel/b.txt", "rel/sub"]
          ∧ statIsDir fsRel a.Path = false)
      ∧ (∀ f ∈ ["rel/a.tar.gz", "rel/b.txt", "rel/sub"], statIsRegular fsRel f = true →
          localAsset fsRel f ∈ assets)
      ∧ ((∀ f ∈ ["rel/a.tar.gz", "rel/b.txt", "rel/sub"],
            statIsRegular fsRel f = true ∨ statIsDir fsRel f = true) →
          assets = (["rel/a.tar.gz", "rel/b.txt", "rel/sub"].filter
            (statIsRegular fsRel)).map (localAsset fsRel)) :=
  getLocalAssets_directory fsRel "rel" (FileInfo.mk 4096 FileMode.dir)
    ["rel/a.tar.gz", "rel/b.txt", "rel/sub"] 2 1 (by rfl) (by rfl) (by rfl)
    (by
      intro f hf
      simp only [List.mem_cons, List.mem_singleton, List.not_mem_nil, or_false] at hf
      rcases hf with rfl | rfl | rfl
      · exact ⟨FileInfo.mk 1024 FileMode.regular, rfl⟩
      · exact ⟨FileInfo.mk 0 FileMode.regular, rfl⟩
      · exact ⟨FileInfo.mk 4096 FileMode.dir, rfl⟩)
    (by decide) (by decide) (by decide)

/-- C4, as stated, fails: `a[` is a directory of `fsBadPat` without any
entry, the glob of `a[/*` fails, and `GetLocalAssets` returns the error of
the glob, not the error "assets to upload are not found". -/
theorem getLocalAssets_errors_counterexample :
    statIsDir fsBadPat "a[" = true
    ∧ GetLocalAssets fsBadPat "a["
        = GoResult.returned ([], some "syntax error in pattern")
    ∧ GetLocalAssets fsBadPat "a["
        ≠ GoResult.returned ([], some "assets to upload are not found") := by
  refine ⟨by decide, by decide, by decide⟩

/-- C4, amended: `GetLocalAssets` returns the stat error and no asset when
the path cannot be stat'ed; when the path is a directory and the glob of
`path/*` fails, it returns the error of the glob and no asset; when the
glob succeeds and every entry is a directory, so that no entry is eligible,
it returns the error "assets to upload are not found" and no asset; and
whenever it returns without error the returned list is not empty. -/
theorem getLocalAssets_errors (fs : FS) (path : String) :
    (∀ err, fs.Stat path = Except.error err →
        GetLocalAssets fs path = GoResult.returned ([], some err))
    ∧ (∀ fInfo err, fs.Stat path = Except.ok fInfo → fInfo.IsDir = true →
        fs.Glob (path ++ "/*") = Except.error err →
        GetLocalAssets fs path = GoResult.returned ([], some err))
    ∧ (∀ fInfo files, fs.Stat path = Except.ok fInfo → fInfo.IsDir = true →
        fs.Glob (path ++ "/*") = Except.ok files →
        (∀ f ∈ files, statIsDir fs f = true) →
        GetLocalAssets fs path
          = GoResult.returned ([], some "assets to upload are not found"))
    ∧ (∀ assets, GetLocalAssets fs path = GoResult.returned (assets, none) →
        assets ≠ []) := by
  refine ⟨?_, ?_, ?_, ?_⟩
  · intro err hstat
    simp only [GetLocalAssets, hstat]
  · intro fInfo err hstat hdir hglob
    simp only [GetLocalAssets, hstat, hdir, hglob, Bool.not_true, Bool.false_eq_true, if_false]
  · intro fInfo files hstat hdir hglob hdirs
    have hall : ∀ f ∈ files, ∃ fi, fs.Stat f = Except.ok fi :=
      fun f hf => statIsDir_ok fs f (hdirs f hf)
    have hloop := localAssetsLoop_eq fs files [] hall
    have hnone : files.filter (fun f => !statIsDir fs f) = [] := by
      rw [List.filter_eq_nil_iff]
      intro f hf
      simp [hdirs f hf]
    rw [hnone] at hloop
    simp only [GetLocalAssets, hstat, hdir, hglob, hloop]
    rfl
  · intro assets hret
    unfold GetLocalAssets at hret
    split at hret
    · cases hret
    · split at hret
      · injection hret with hpair
        injection hpair with ha _
        rw [← ha]
        simp
      · split at hret
        · cases hret
        · split at hret
          · cases hret
          · split at hret
            · cases hret
            · next hne =>
              injection hret with hpair
              injection hpair with ha _
              subst ha
              intro hnil
              apply hne
              rw [hnil]
              rfl

/-- Witness of C4 (amended): in `fsRel` the path `nope` cannot be stat'ed,
`empty` is a directory without entries, and `rel` is scanned without error;
in `fsBadPat` the glob for the directory `a[` fails. -/
theorem getLocalAssets_errors_witness :
    GetLocalAssets fsRel "nope" = GoResult.returned ([], some "no such file or directory")
    ∧ GetLocalAssets fsBadPat "a[" = GoResult.returned ([], some "syntax error in pattern")
    ∧ GetLocalAssets fsRel "empty"
        = GoResult.returned ([], some "assets to upload are not found")
    ∧ [Asset.mk "rel/a.tar.gz" "a.tar.gz" 0, Asset.mk "rel/b.txt" "b.txt" 0] ≠ [] :=
  ⟨(getLocalAssets_errors fsRel "nope").1 "no such file or directory" (by rfl),
   (getLocalAssets_errors fsBadPat "a[").2.1 (FileInfo.mk 4096 FileMode.dir)
      "syntax error in pattern" (by rfl) (by rfl) (by rfl),
   (getLocalAssets_errors fsRel "empty").2.2.1 (FileInfo.mk 4096 FileMode.dir) []
      (by rfl) (by rfl) (by rfl) (by decide),
   (getLocalAssets_errors fsRel "rel").2.2.2
      [Asset.mk "rel/a.tar.gz" "a.tar.gz" 0, Asset.mk "rel/b.txt" "b.txt" 0] (by rfl)⟩

/-- C10: when the path is a directory and every entry returned by the glob
of `path/*` can be stat'ed, the loop over the entries finishes without
dereferencing a missing file-info, and `GetLocalAssets` returns (a list and
an error value): it does not panic. -/
theorem getLocalAssets_total (fs : FS) (path : String) (fInfo : FileInfo)
    (files : List String)
    (hstat : fs.Stat path = Except.ok fInfo) (hdir : fInfo.IsDir = true)
    (hglob : fs.Glob (path ++ "/*") = Except.ok files)
    (hall : ∀ f ∈ files, ∃ fi, fs.Stat f = Except.ok fi) :
    (∃ assets, localAssetsLoop fs files [] = some assets)
    ∧ ∃ assets err, GetLocalAssets fs path = GoResult.returned (assets, err) := by
  have hloop := localAssetsLoop_eq fs files [] hall
  refine ⟨⟨_, hloop⟩, ?_⟩
  simp only [GetLocalAssets, hstat, hdir, hglob, hloop, Bool.not_true, Bool.false_eq_true,
    if_false]
  split
  · exact ⟨_, _, rfl⟩
  · exact ⟨_, _, rfl⟩

/-- Witness of C10: every entry of the directory `rel` of `fsRel` can be
stat'ed. -/
theorem getLocalAssets_total_witness :
    (∃ assets, localAssetsLoop fsRel ["rel/a.tar.gz", "rel/b.txt", "rel/sub"] [] = some assets)
    ∧ ∃ assets err, GetLocalAssets fsRel "rel" = GoResult.returned (assets, err) :=
  getLocalAssets_total fsRel "rel" (FileInfo.mk 4096 FileMode.dir)
    ["rel/a.tar.gz", "rel/b.txt", "rel/sub"] (by rfl) (by rfl) (by rfl)
    (by
      intro f hf
      simp only [List.mem_cons, List.mem_singleton, List.not_mem_nil, or_false] at hf
      rcases hf with rfl | rfl | rfl
      · exact ⟨FileInfo.mk 1024 FileMode.regular, rfl⟩
      · exact ⟨FileInfo.mk 0 FileMode.regular, rfl⟩
      · exact ⟨FileInfo.mk 4096 FileMode.dir, rfl⟩)

/-! ## UploadAsset, DeleteAsset and the per-asset workflow: proofs -/

theorem deleteAsset_events (Client : Type) (api : API Client) (asset : Asset)
    (apiOpts : GitHubAPIOpts) :
    (DeleteAsset api asset apiOpts).2
      = [Event.deleteReleaseAsset apiOpts.OwnerName apiOpts.RepoName asset.ID] := by
  unfold DeleteAsset
  dsimp only
  split
  · rfl
  · split <;> rfl

/-- C6: when the local file of the asset can be stat'ed and has size 0,
`UploadAsset` returns nil, and the only things it did are the stat and the
warning it prints: it neither opened the file nor called
`UploadReleaseAsset`. -/
theorem uploadAsset_empty_file (Client : Type) (fs : FS) (api : API Client) (asset : Asset)
    (apiOpts : GitHubAPIOpts) (fileinfo : FileInfo)
    (hstat : fs.Stat asset.Path = Except.ok fileinfo) (hsize : fileinfo.Size = 0) :
    (UploadAsset fs api asset apiOpts).1 = none
    ∧ (∀ e ∈ (UploadAsset fs api asset apiOpts).2, e.isOpenOrUpload = false)
    ∧ (UploadAsset fs api asset apiOpts).2
        = [Event.osStat asset.Path,
            Event.printf ("Warning: GitHub do not allow empty files to upload: " ++ asset.Name
              ++ " (skipping)\n")] := by
  have h : UploadAsset fs api asset apiOpts
      = (none, [Event.osStat asset.Path,
          Event.printf ("Warning: GitHub do not allow empty files to upload: " ++ asset.Name
            ++ " (skipping)\n")]) := by
    simp only [UploadAsset, hstat, hsize, if_true]
  rw [h]
  refine ⟨rfl, ?_, rfl⟩
  intro e he
  simp only [List.mem_cons, List.mem_singleton, List.not_mem_nil, or_false] at he
  rcases he with rfl | rfl <;> rfl

/-- Witness of C6: the empty file `rel/b.txt` of `fsRel`. -/
theorem uploadAsset_empty_file_witness :
    (UploadAsset fsRel (apiOK []) (Asset.mk "rel/b.txt" "b.txt" 0) optsRel).1 = none
    ∧ (∀ e ∈ (UploadAsset fsRel (apiOK []) (Asset.mk "rel/b.txt" "b.txt" 0) optsRel).2,
        e.isOpenOrUpload = false)
    ∧ (UploadAsset fsRel (apiOK []) (Asset.mk "rel/b.txt" "b.txt" 0) optsRel).2
        = [Event.osStat "rel/b.txt",
            Event.printf ("Warning: GitHub do not allow empty files to upload: " ++ "b.txt"
              ++ " (skipping)\n")] :=
  uploadAsset_empty_file Unit fsRel (apiOK []) (Asset.mk "rel/b.txt" "b.txt" 0) optsRel
    (FileInfo.mk 0 FileMode.regular) (by rfl) (by rfl)

/-- What `UploadAsset` does holds no call marker and no delete request, and
exactly one `os.Stat`, of the path of the asset. -/
theorem uploadAsset_events_filters (Client : Type) (fs : FS) (api : API Client)
    (asset : Asset) (apiOpts : GitHubAPIOpts) :
    (UploadAsset fs api asset apiOpts).2.filter Event.isDeleteCall = []
    ∧ (UploadAsset fs api asset apiOpts).2.filter Event.isUploadCall = []
    ∧ (UploadAsset fs api asset apiOpts).2.filter Event.isDeleteRequest = []
    ∧ (UploadAsset fs api asset apiOpts).2.filter Event.isStat = [Event.osStat asset.Path] := by
  unfold UploadAsset
  dsimp only
  split
  · simp [Event.isDeleteCall, Event.isUploadCall, Event.isDeleteRequest, Event.isStat]
  · split
    · simp [Event.isDeleteCall, Event.isUploadCall, Event.isDeleteRequest, Event.isStat]
    · split
      · simp [Event.isDeleteCall, Event.isUploadCall, Event.isDeleteRequest, Event.isStat]
      · split
        · simp [Event.isDeleteCall, Event.isUploadCall, Event.isDeleteRequest, Event.isStat]
        · split <;>
            simp [Event.isDeleteCall, Event.isUploadCall, Event.isDeleteRequest, Event.isStat]

theorem Run.step_eq (r : Run) (es : List Event) :
    r.step es = Run.mk (r.events ++ seg r.going es) r.going := by
  rcases r with ⟨ev, g⟩
  cases g <;> simp [Run.step, seg]

theorem Run.chanOp_eq (r : Run) (b : Bool) (e : Event) :
    r.chanOp b e = Run.mk (r.events ++ seg (r.going && b) [e]) (r.going && b) := by
  rcases r with ⟨ev, g⟩
  cases g <;> cases b <;> simp [Run.chanOp, seg]

theorem filter_seg (p : Event → Bool) (b : Bool) (es : List Event) :
    (seg b es).filter p = seg b (es.filter p) := by
  cases b <;> rfl

theorem seg_nil (b : Bool) : seg b [] = [] := by
  cases b <;> rfl

/-- The calls of a run of the worker and what they start with, in order, and
whether the run reaches its end, in closed form. -/
theorem uploadWorker_summary (Client : Type) (fs : FS) (api : API Client) (ghrOpts : GhrOpts)
    (apiOpts : GitHubAPIOpts) (asset : Asset) (peers : Peers) :
    (uploadWorker fs api ghrOpts apiOpts asset peers).events.filter Event.isCall
      = seg (decide (0 < ghrOpts.Parallel) && peers.semAdmits
              && (ghrOpts.Replace && asset.ID != AssetIDNotFound) && peers.recvDeleting)
          [Event.callDeleteAsset asset]
        ++ seg (decide (0 < ghrOpts.Parallel) && peers.semAdmits
              && (!(ghrOpts.Replace && asset.ID != AssetIDNotFound)
                  || (peers.recvDeleting
                      && ((DeleteAsset api asset apiOpts).1.isNone || peers.recvDeleteErr)))
              && peers.recvUploading)
          [Event.callUploadAsset asset]
    ∧ (uploadWorker fs api ghrOpts apiOpts asset peers).events.filter Event.isEffect
      = seg (decide (0 < ghrOpts.Parallel) && peers.semAdmits
              && (ghrOpts.Replace && asset.ID != AssetIDNotFound) && peers.recvDeleting)
          [Event.deleteReleaseAsset apiOpts.OwnerName apiOpts.RepoName asset.ID]
        ++ seg (decide (0 < ghrOpts.Parallel) && peers.semAdmits
              && (!(ghrOpts.Replace && asset.ID != AssetIDNotFound)
                  || (peers.recvDeleting
                      && ((DeleteAsset api asset apiOpts).1.isNone || peers.recvDeleteErr)))
              && peers.recvUploading)
          [Event.osStat asset.Path]
    ∧ (uploadWorker fs api ghrOpts apiOpts asset peers).going
      = (decide (0 < ghrOpts.Parallel) && peers.semAdmits
          && (!(ghrOpts.Replace && asset.ID != AssetIDNotFound)
              || (peers.recvDeleting
                  && ((DeleteAsset api asset apiOpts).1.isNone || peers.recvDeleteErr)))
          && peers.recvUploading
          && ((UploadAsset fs api asset apiOpts).1.isNone || peers.recvUploadErr)) := by
  have hde := deleteAsset_events Client api asset apiOpts
  have h1 : (UploadAsset fs api asset apiOpts).2.filter Event.isCall = [] := by
    obtain ⟨h1, h2, _, _⟩ := uploadAsset_events_filters Client fs api asset apiOpts
    rw [List.filter_eq_nil_iff] at h1 h2 ⊢
    intro e he
    have := h1 e he
    have := h2 e he
    simp_all [Event.isCall]
  have h2 : (UploadAsset fs api asset apiOpts).2.filter Event.isEffect
      = [Event.osStat asset.Path] := by
    obtain ⟨_, _, h3, h4⟩ := uploadAsset_events_filters Client fs api asset apiOpts
    rw [← h4]
    apply List.filter_congr
    intro e he
    rw [List.filter_eq_nil_iff] at h3
    have := h3 e he
    simp_all [Event.isEffect]
  unfold uploadWorker
  simp only [hde]
  generalize (UploadAsset fs api asset apiOpts).2 = ue at h1 h2
  generalize (UploadAsset fs api asset apiOpts).1 = uerr
  generalize (DeleteAsset api asset apiOpts).1 = derr
  generalize decide (0 < ghrOpts.Parallel) = b0
  generalize (ghrOpts.Replace && asset.ID != AssetIDNotFound) = c
  rcases peers with ⟨p1, p2, p3, p4, p5⟩
  cases c <;> cases derr <;> cases uerr
    <;> simp only [Run.step_eq, Run.chanOp_eq, List.filter_append, filter_seg, List.filter_cons,
          List.filter_nil, h1, h2, seg_nil, List.append_nil, List.nil_append,
          Event.isCall, Event.isEffect,
          Event.isDeleteCall, Event.isUploadCall, Event.isDeleteRequest, Event.isStat,
          Bool.true_and, Bool.and_true, Bool.false_and, Bool.and_false, Bool.not_true,
          Bool.not_false, Bool.true_or, Bool.or_true, Bool.false_or, Bool.or_false,
          Option.isNone_none, Option.isNone_some, if_true, if_false, Bool.false_eq_true,
          List.cons_append, and_self, Bool.and_assoc, Bool.or_self]
    <;> try simp [seg]

/-- A run of the worker for an asset that the guard of the delete step
rejects holds no call of `DeleteAsset` and no delete request. -/
theorem uploadWorker_no_delete (Client : Type) (fs : FS) (api : API Client)
    (ghrOpts : GhrOpts) (apiOpts : GitHubAPIOpts) (asset : Asset) (peers : Peers)
    (hguard : (ghrOpts.Replace && asset.ID != AssetIDNotFound) = false) :
    ∀ e ∈ (uploadWorker fs api ghrOpts apiOpts asset peers).events,
      e.isDeleteCall = false ∧ e.isDeleteRequest = false := by
  obtain ⟨hc, he, _⟩ := uploadWorker_summary Client fs api ghrOpts apiOpts asset peers
  rw [hguard] at hc he
  simp only [Bool.and_false, Bool.false_and, seg, List.nil_append] at hc he
  intro e hmem
  constructor
  · cases hb : e.isDeleteCall with
    | false => rfl
    | true =>
      have hin : e ∈ (uploadWorker fs api ghrOpts apiOpts asset peers).events.filter
          Event.isCall := List.mem_filter.mpr ⟨hmem, by simp [Event.isCall, hb]⟩
      rw [hc] at hin
      cases hseg : (decide (0 < ghrOpts.Parallel) && peers.semAdmits
          && (!false || (peers.recvDeleting
            && ((DeleteAsset api asset apiOpts).1.isNone || peers.recvDeleteErr)))
          && peers.recvUploading) with
      | false => rw [hseg] at hin; cases hin
      | true =>
        rw [hseg] at hin
        simp only [seg, List.mem_singleton] at hin
        subst hin
        cases hb
  · cases hb : e.isDeleteRequest with
    | false => rfl
    | true =>
      have hin : e ∈ (uploadWorker fs api ghrOpts apiOpts asset peers).events.filter
          Event.isEffect := List.mem_filter.mpr ⟨hmem, by simp [Event.isEffect, hb]⟩
      rw [he] at hin
      cases hseg : (decide (0 < ghrOpts.Parallel) && peers.semAdmits
          && (!false || (peers.recvDeleting
            && ((DeleteAsset api asset apiOpts).1.isNone || peers.recvDeleteErr)))
          && peers.recvUploading) with
      | false => rw [hseg] at hin; cases hin
      | true =>
        rw [hseg] at hin
        simp only [seg, List.mem_singleton] at hin
        subst hin
        cases hb

/-- C5, as stated, fails: with `Parallel = 0` the goroutine blocks for good
at `semaphore <- 1`, before any call. `Replace` is set and the ID of the
asset is not `AssetIDNotFound`, the remote and the consumer grant
everything, and the run holds no step at all: no call of `DeleteAsset` and
no call of `UploadAsset`. -/
theorem uploadWorker_calls_counterexample :
    ((GhrOpts.mk 0 true).Replace = true
      ∧ (Asset.mk "rel/a.tar.gz" "a.tar.gz" 5).ID ≠ AssetIDNotFound)
    ∧ uploadWorker fsRel (apiOK []) (GhrOpts.mk 0 true) optsRel
        (Asset.mk "rel/a.tar.gz" "a.tar.gz" 5) peersAll = Run.mk [] false
    ∧ (uploadWorker fsRel (apiOK []) (GhrOpts.mk 0 true) optsRel
        (Asset.mk "rel/a.tar.gz" "a.tar.gz" 5) peersAll).events.filter Event.isCall = [] :=
  ⟨⟨rfl, by decide⟩, by decide, by decide⟩

/-- C5, amended: for every asset, every answer of the filesystem and of the
remote, and every run of the per-asset workflow, finished or blocked for
good at the semaphore or at a send: the calls made, in order, are an initial
part of `DeleteAsset`, `UploadAsset` when `Replace` is set and the ID of the
asset is not `AssetIDNotFound`, and of `UploadAsset` alone otherwise, and
so are the delete request and the `os.Stat` these calls start with. A run
that reaches the end of the body makes all of these calls: `DeleteAsset` if
and only if `Replace` is set and the ID is not `AssetIDNotFound`, then
`UploadAsset` exactly once, whether the delete returned an error or not.
The run reaches the end exactly when `Parallel` is positive, the semaphore
admits the goroutine, and each message it sends is received. -/
theorem uploadWorker_calls (Client : Type) (fs : FS) (api : API Client) (ghrOpts : GhrOpts)
    (apiOpts : GitHubAPIOpts) (asset : Asset) (peers : Peers) :
    (∃ rest, (uploadWorker fs api ghrOpts apiOpts asset peers).events.filter Event.isCall ++ rest
        = (if ghrOpts.Replace = true ∧ asset.ID ≠ AssetIDNotFound
            then [Event.callDeleteAsset asset, Event.callUploadAsset asset]
            else [Event.callUploadAsset asset]))
    ∧ (∃ rest,
        (uploadWorker fs api ghrOpts apiOpts asset peers).events.filter Event.isEffect ++ rest
        = (if ghrOpts.Replace = true ∧ asset.ID ≠ AssetIDNotFound
            then [Event.deleteReleaseAsset apiOpts.OwnerName apiOpts.RepoName asset.ID,
                  Event.osStat asset.Path]
            else [Event.osStat asset.Path]))
    ∧ ((uploadWorker fs api ghrOpts apiOpts asset peers).going = true →
        (uploadWorker fs api ghrOpts apiOpts asset peers).events.filter Event.isCall
          = (if ghrOpts.Replace = true ∧ asset.ID ≠ AssetIDNotFound
              then [Event.callDeleteAsset asset, Event.callUploadAsset asset]
              else [Event.callUploadAsset asset])
        ∧ (uploadWorker fs api ghrOpts apiOpts asset peers).events.filter Event.isEffect
          = (if ghrOpts.Replace = true ∧ asset.ID ≠ AssetIDNotFound
              then [Event.deleteReleaseAsset apiOpts.OwnerName apiOpts.RepoName asset.ID,
                    Event.osStat asset.Path]
              else [Event.osStat asset.Path]))
    ∧ ((uploadWorker fs api ghrOpts apiOpts asset peers).going = true ↔
        (0 < ghrOpts.Parallel ∧ peers.semAdmits = true
          ∧ ((ghrOpts.Replace = true ∧ asset.ID ≠ AssetIDNotFound) →
              peers.recvDeleting = true
              ∧ ((DeleteAsset api asset apiOpts).1 ≠ none → peers.recvDeleteErr = true))
          ∧ peers.recvUploading = true
          ∧ ((UploadAsset fs api asset apiOpts).1 ≠ none → peers.recvUploadErr = true))) := by
  obtain ⟨hc, he, hg⟩ := uploadWorker_summary Client fs api ghrOpts apiOpts asset peers
  rw [hc, he, hg]
  have hcond : (ghrOpts.Replace = true ∧ asset.ID ≠ AssetIDNotFound)
      ↔ (ghrOpts.Replace && asset.ID != AssetIDNotFound) = true := by
    simp
  have hpar : 0 < ghrOpts.Parallel ↔ decide (0 < ghrOpts.Parallel) = true := by
    simp
  have hdn : (DeleteAsset api asset apiOpts).1 ≠ none
      ↔ (DeleteAsset api asset apiOpts).1.isNone = false := by
    cases (DeleteAsset api asset apiOpts).1 <;> simp
  have hun : (UploadAsset fs api asset apiOpts).1 ≠ none
      ↔ (UploadAsset fs api asset apiOpts).1.isNone = false := by
    cases (UploadAsset fs api asset apiOpts).1 <;> simp
  simp only [hcond, hdn, hun]
  generalize (ghrOpts.Replace && asset.ID != AssetIDNotFound) = c
  generalize decide (0 < ghrOpts.Parallel) = b0 at hpar ⊢
  simp only [hpar]
  generalize (DeleteAsset api asset apiOpts).1.isNone = d
  generalize (UploadAsset fs api asset apiOpts).1.isNone = u
  rcases peers with ⟨p1, p2, p3, p4, p5⟩
  dsimp only
  have hend : (b0 && p1 && (!c || p2 && (d || p3)) && p4 && (u || p5)) = true ↔
      (b0 = true ∧ p1 = true ∧ (c = true → p2 = true ∧ (d = false → p3 = true))
        ∧ p4 = true ∧ (u = false → p5 = true)) := by
    cases c <;> cases d <;> cases u <;> simp [and_assoc]
  have hA : c = false → (b0 && p1 && c && p2) = false := by
    intro h
    subst h
    simp
  have hBA : c = true → (b0 && p1 && (!c || p2 && (d || p3)) && p4) = true →
      (b0 && p1 && c && p2) = true := by
    intro h
    subst h
    cases b0 <;> cases p1 <;> cases p2 <;> simp
  have hGB : (b0 && p1 && (!c || p2 && (d || p3)) && p4 && (u || p5)) = true →
      (b0 && p1 && (!c || p2 && (d || p3)) && p4) = true := by
    intro h
    rw [Bool.and_eq_true] at h
    exact h.1
  refine ⟨?_, ?_, ?_, hend⟩
  · generalize (b0 && p1 && c && p2) = A at hA hBA
    generalize (b0 && p1 && (!c || p2 && (d || p3)) && p4) = B at hBA
    cases c <;> cases A <;> cases B <;> simp [seg] at hA hBA ⊢
  · generalize (b0 && p1 && c && p2) = A at hA hBA
    generalize (b0 && p1 && (!c || p2 && (d || p3)) && p4) = B at hBA
    cases c <;> cases A <;> cases B <;> simp [seg] at hA hBA ⊢
  · intro hfin
    have hB := hGB hfin
    generalize (b0 && p1 && c && p2) = A at hA hBA
    generalize (b0 && p1 && (!c || p2 && (d || p3)) && p4) = B at hBA hB
    subst hB
    cases c <;> cases A <;> simp [seg] at hA hBA ⊢

/-- Witness of C5 (amended): a run with two slots, a receiver for every
message and a remote that accepts everything reaches its end, having called
`DeleteAsset` and then `UploadAsset`. -/
theorem uploadWorker_calls_witness :
    (uploadWorker fsRel (apiOK []) (GhrOpts.mk 2 true) optsRel
        (Asset.mk "rel/a.tar.gz" "a.tar.gz" 5) peersAll).events.filter Event.isCall
      = (if (GhrOpts.mk 2 true).Replace = true
            ∧ (Asset.mk "rel/a.tar.gz" "a.tar.gz" 5).ID ≠ AssetIDNotFound
          then [Event.callDeleteAsset (Asset.mk "rel/a.tar.gz" "a.tar.gz" 5),
                Event.callUploadAsset (Asset.mk "rel/a.tar.gz" "a.tar.gz" 5)]
          else [Event.callUploadAsset (Asset.mk "rel/a.tar.gz" "a.tar.gz" 5)])
    ∧ (uploadWorker fsRel (apiOK []) (GhrOpts.mk 2 true) optsRel
        (Asset.mk "rel/a.tar.gz" "a.tar.gz" 5) peersAll).events.filter Event.isEffect
      = (if (GhrOpts.mk 2 true).Replace = true
            ∧ (Asset.mk "rel/a.tar.gz" "a.tar.gz" 5).ID ≠ AssetIDNotFound
          then [Event.deleteReleaseAsset optsRel.OwnerName optsRel.RepoName
                  (Asset.mk "rel/a.tar.gz" "a.tar.gz" 5).ID,
                Event.osStat (Asset.mk "rel/a.tar.gz" "a.tar.gz" 5).Path]
          else [Event.osStat (Asset.mk "rel/a.tar.gz" "a.tar.gz" 5).Path]) :=
  (uploadWorker_calls Unit fsRel (apiOK []) (GhrOpts.mk 2 true) optsRel
    (Asset.mk "rel/a.tar.gz" "a.tar.gz" 5) peersAll).2.2.1 (by decide)


/-! ## FetchAssetID: the loops -/

/-- One pass of the inner loop: names and paths stay, a listed cell with the
name of `ra` receives the ID of `ra`, every other cell is untouched. -/
theorem fetchInner_spec (ra : ReleaseAsset) (ps : List AssetPtr) (h h1 : Heap)
    (hrun : fetchInner ra ps h = some h1) (p : Nat) :
    (h1 p).Path = (h p).Path ∧ (h1 p).Name = (h p).Name
    ∧ (some p ∈ ps → ra.Name = some (h p).Name → ra.ID = some (h1 p).ID)
    ∧ ((some p ∉ ps ∨ ra.Name ≠ some (h p).Name) → h1 p = h p) := by
  induction ps generalizing h with
  | nil =>
    simp only [fetchInner, Option.some.injEq] at hrun
    subst hrun
    simp
  | cons a rest ih =>
    unfold fetchInner at hrun
    split at hrun
    · cases hrun
    · cases hrun
    · next raName q hraName =>
      split at hrun
      · next hmatch =>
        split at hrun
        · cases hrun
        · next raID hraID =>
          have hih := ih _ hrun
          obtain ⟨hpath, hnm, hhit, hmiss⟩ := hih
          by_cases hpq : p = q
          · subst hpq
            simp only [Function.update_same] at hpath hnm hhit hmiss
            refine ⟨hpath, hnm, ?_, ?_⟩
            · intro _ _
              by_cases hin : some p ∈ rest
              · exact hhit hin (by rw [hraName, hmatch])
              · have := hmiss (Or.inl hin)
                rw [this, hraID]
            · intro hor
              rcases hor with hor | hor
              · exact absurd (List.mem_cons_self _ _) hor
              · exact absurd (by rw [hraName, hmatch]) hor
          · simp only [Function.update_noteq hpq] at hpath hnm hhit hmiss
            refine ⟨hpath, hnm, ?_, ?_⟩
            · intro hin hname
              rw [List.mem_cons] at hin
              rcases hin with hin | hin
              · exact absurd (Option.some.inj hin) hpq
              · exact hhit hin hname
            · intro hor
              apply hmiss
              rcases hor with hor | hor
              · exact Or.inl (fun hin => hor (List.mem_cons_of_mem _ hin))
              · exact Or.inr hor
      · next hmatch =>
        obtain ⟨hpath, hnm, hhit, hmiss⟩ := ih _ hrun
        refine ⟨hpath, hnm, ?_, ?_⟩
        · intro hin hname
          rw [List.mem_cons] at hin
          rcases hin with hin | hin
          · have hpq : p = q := Option.some.inj hin
            subst hpq
            rw [hraName] at hname
            exact absurd (Option.some.inj hname) hmatch
          · exact hhit hin hname
        · intro hor
          apply hmiss
          rcases hor with hor | hor
          · exact Or.inl (fun hin => hor (List.mem_cons_of_mem _ hin))
          · exact Or.inr hor

theorem fetchOuter_append (l1 l2 : List ReleaseAsset) (ps : List AssetPtr) (h : Heap) :
    fetchOuter (l1 ++ l2) ps h = (fetchOuter l1 ps h).bind (fetchOuter l2 ps) := by
  induction l1 generalizing h with
  | nil => rfl
  | cons ra rest ih =>
    simp only [List.cons_append, fetchOuter]
    cases fetchInner ra ps h with
    | none => rfl
    | some h1 => exact ih h1

/-- The loops never change a name or a path. -/
theorem fetchOuter_names (ras : List ReleaseAsset) (ps : List AssetPtr) (h h1 : Heap)
    (hrun : fetchOuter ras ps h = some h1) (p : Nat) :
    (h1 p).Path = (h p).Path ∧ (h1 p).Name = (h p).Name := by
  induction ras generalizing h with
  | nil =>
    simp only [fetchOuter, Option.some.injEq] at hrun
    subst hrun
    exact ⟨rfl, rfl⟩
  | cons ra rest ih =>
    unfold fetchOuter at hrun
    split at hrun
    · cases hrun
    · next h2 hin =>
      obtain ⟨hp2, hn2, _, _⟩ := fetchInner_spec ra ps h h2 hin p
      obtain ⟨hp1, hn1⟩ := ih h2 hrun
      exact ⟨hp1.trans hp2, hn1.trans hn2⟩

/-- A cell that is not listed, or whose name no remote entry carries, is
untouched. -/
theorem fetchOuter_miss (ras : List ReleaseAsset) (ps : List AssetPtr) (h h1 : Heap)
    (hrun : fetchOuter ras ps h = some h1) (p : Nat)
    (hmiss : some p ∉ ps ∨ ∀ r ∈ ras, r.Name ≠ some (h p).Name) :
    h1 p = h p := by
  induction ras generalizing h with
  | nil =>
    simp only [fetchOuter, Option.some.injEq] at hrun
    subst hrun
    rfl
  | cons ra rest ih =>
    unfold fetchOuter at hrun
    split at hrun
    · cases hrun
    · next h2 hin =>
      obtain ⟨_, hn2, _, hm2⟩ := fetchInner_spec ra ps h h2 hin p
      have h2p : h2 p = h p := by
        apply hm2
        rcases hmiss with hmiss | hmiss
        · exact Or.inl hmiss
        · exact Or.inr (hmiss ra (List.mem_cons_self _ _))
      have := ih h2 hrun (by
        rcases hmiss with hmiss | hmiss
        · exact Or.inl hmiss
        · right
          intro r hr
          rw [hn2]
          exact hmiss r (List.mem_cons_of_mem _ hr))
      rw [this, h2p]

/-- The last remote entry carrying the name of a listed cell decides its ID. -/
theorem fetchOuter_last (pre post : List ReleaseAsset) (ra : ReleaseAsset)
    (ps : List AssetPtr) (h h1 : Heap)
    (hrun : fetchOuter (pre ++ ra :: post) ps h = some h1) (p : Nat)
    (hmem : some p ∈ ps) (hname : ra.Name = some (h p).Name)
    (hlast : ∀ r ∈ post, r.Name ≠ some (h p).Name) :
    ra.ID = some (h1 p).ID := by
  rw [fetchOuter_append] at hrun
  cases hpre : fetchOuter pre ps h with
  | none => rw [hpre] at hrun; cases hrun
  | some h2 =>
    rw [hpre, Option.some_bind] at hrun
    unfold fetchOuter at hrun
    split at hrun
    · cases hrun
    · next h3 hin =>
      have hn2 := (fetchOuter_names pre ps h h2 hpre p).2
      obtain ⟨_, hn3, hhit, _⟩ := fetchInner_spec ra ps h2 h3 hin p
      have hid := hhit hmem (by rw [hn2]; exact hname)
      have hkeep := fetchOuter_miss post ps h3 h1 hrun p (by
        right
        intro r hr
        rw [hn3, hn2]
        exact hlast r hr)
      rw [hkeep]
      exact hid

/-- A list with an element satisfying `P` splits at the last such element. -/
theorem exists_last_split (P : ReleaseAsset → Prop) (l : List ReleaseAsset)
    (hex : ∃ r ∈ l, P r) :
    ∃ pre ra post, l = pre ++ ra :: post ∧ P ra ∧ ∀ r ∈ post, ¬ P r := by
  induction l with
  | nil =>
    obtain ⟨r, hr, _⟩ := hex
    cases hr
  | cons x rest ih =>
    by_cases hrest : ∃ r ∈ rest, P r
    · obtain ⟨pre, ra, post, hsplit, hP, hpost⟩ := ih hrest
      exact ⟨x :: pre, ra, post, by rw [hsplit]; rfl, hP, hpost⟩
    · obtain ⟨r, hr, hPr⟩ := hex
      rw [List.mem_cons] at hr
      rcases hr with hr | hr
      · subst hr
        exact ⟨[], r, rest, rfl, hPr, fun s hs hPs => hrest ⟨s, hs, hPs⟩⟩
      · exact absurd ⟨r, hr, hPr⟩ hrest

/-- When `FetchAssetID` returns nil, the listing call returned no error and
the memory it leaves is the result of the loops over the listing. -/
theorem fetchAssetID_nil (Client : Type) (api : API Client) (ps : List AssetPtr)
    (apiOpts : GitHubAPIOpts) (h h1 : Heap)
    (hret : FetchAssetID api ps apiOpts h = GoResult.returned (none, h1)) :
    fetchOuter (api.ListReleaseAssets (api.NewOAuthedClient apiOpts) apiOpts.OwnerName
      apiOpts.RepoName apiOpts.ID).1 ps h = some h1 := by
  unfold FetchAssetID at hret
  dsimp only at hret
  split at hret
  · cases hret
  · next ras res hcall =>
    split at hret
    · cases hret
    · split at hret
      · cases hret
      · next h2 hrun =>
        injection hret with hpair
        injection hpair with _ hh
        subst hh
        rw [hcall]
        exact hrun

/-! ## FetchAssetID: the claims -/

/-- C1, as stated, fails: the candidates start at `AssetIDNotFound`, the
listing `listingZero` holds an entry with the name of the candidate at
address 0, `FetchAssetID` returns nil, and the ID of that candidate is
still `AssetIDNotFound`, because that is the ID the entry carries. -/
theorem fetchAssetID_found_iff_counterexample :
    (∀ p, (heapRel p).ID = AssetIDNotFound)
    ∧ ∃ h1, FetchAssetID (apiOK listingZero) [some 0, some 1] optsRel heapRel
          = GoResult.returned (none, h1)
        ∧ (∃ ra ∈ listingZero, ra.Name = some (heapRel 0).Name)
        ∧ ¬ ((h1 0).ID ≠ AssetIDNotFound) := by
  refine ⟨?_, ?_⟩
  · intro p
    unfold heapRel
    split <;> rfl
  · refine ⟨_, rfl, ⟨ReleaseAsset.mk (some 0) (some "a.tar.gz"), by decide, by decide⟩, ?_⟩
    intro hne
    exact hne (by decide)

/-- C1, amended: for candidates that all start at `AssetIDNotFound`, after
`FetchAssetID` returns nil the ID of a candidate differs from
`AssetIDNotFound` if and only if the listing has an entry with exactly the
name of the candidate and the last such entry carries an ID other than
`AssetIDNotFound`; so, when no entry of the listing carries the ID
`AssetIDNotFound`, if and only if some entry has exactly that name. The
name of the candidate is the same before and after. -/
theorem fetchAssetID_found_iff (Client : Type) (api : API Client) (ps : List AssetPtr)
    (apiOpts : GitHubAPIOpts) (h h1 : Heap)
    (hinit : ∀ p, some p ∈ ps → (h p).ID = AssetIDNotFound)
    (hret : FetchAssetID api ps apiOpts h = GoResult.returned (none, h1))
    (p : Nat) (hmem : some p ∈ ps) :
    (h1 p).Name = (h p).Name
    ∧ ((h1 p).ID ≠ AssetIDNotFound ↔
        ∃ pre ra post,
          (api.ListReleaseAssets (api.NewOAuthedClient apiOpts) apiOpts.OwnerName
            apiOpts.RepoName apiOpts.ID).1 = pre ++ ra :: post
          ∧ ra.Name = some (h p).Name
          ∧ (∀ r ∈ post, r.Name ≠ some (h p).Name)
          ∧ ra.ID ≠ some AssetIDNotFound)
    ∧ ((∀ r ∈ (api.ListReleaseAssets (api.NewOAuthedClient apiOpts) apiOpts.OwnerName
            apiOpts.RepoName apiOpts.ID).1, r.ID ≠ some AssetIDNotFound) →
        ((h1 p).ID ≠ AssetIDNotFound ↔
          ∃ ra ∈ (api.ListReleaseAssets (api.NewOAuthedClient apiOpts) apiOpts.OwnerName
            apiOpts.RepoName apiOpts.ID).1, ra.Name = some (h p).Name)) := by
  have hrun := fetchAssetID_nil Client api ps apiOpts h h1 hret
  generalize (api.ListReleaseAssets (api.NewOAuthedClient apiOpts) apiOpts.OwnerName
    apiOpts.RepoName apiOpts.ID).1 = ras at hrun
  have hiff : (h1 p).ID ≠ AssetIDNotFound ↔
      ∃ pre ra post, ras = pre ++ ra :: post ∧ ra.Name = some (h p).Name
        ∧ (∀ r ∈ post, r.Name ≠ some (h p).Name) ∧ ra.ID ≠ some AssetIDNotFound := by
    constructor
    · intro hne
      have hex : ∃ r ∈ ras, r.Name = some (h p).Name := by
        by_contra hno
        have hkeep := fetchOuter_miss ras ps h h1 hrun p
          (Or.inr (fun r hr hn => hno ⟨r, hr, hn⟩))
        rw [hkeep] at hne
        exact hne (hinit p hmem)
      obtain ⟨pre, ra, post, hsplit, hname, hpost⟩ :=
        exists_last_split (fun r => r.Name = some (h p).Name) ras hex
      refine ⟨pre, ra, post, hsplit, hname, hpost, ?_⟩
      rw [hsplit] at hrun
      rw [fetchOuter_last pre post ra ps h h1 hrun p hmem hname hpost]
      intro heq
      exact hne (Option.some.inj heq)
    · rintro ⟨pre, ra, post, hsplit, hname, hpost, hid⟩
      rw [hsplit] at hrun
      rw [fetchOuter_last pre post ra ps h h1 hrun p hmem hname hpost] at hid
      intro heq
      exact hid (by rw [heq])
  refine ⟨(fetchOuter_names ras ps h h1 hrun p).2, hiff, ?_⟩
  intro hids
  rw [hiff]
  constructor
  · rintro ⟨pre, ra, post, hsplit, hname, _, _⟩
    exact ⟨ra, by rw [hsplit]; simp, hname⟩
  · intro hex
    obtain ⟨pre, ra, post, hsplit, hname, hpost⟩ :=
      exists_last_split (fun r => r.Name = some (h p).Name) ras hex
    exact ⟨pre, ra, post, hsplit, hname, hpost, hids ra (by rw [hsplit]; simp)⟩

/-- Witness of C1 (amended): the listing `listingTwice`, whose last entry
named `a.tar.gz` carries the ID 9. -/
theorem fetchAssetID_found_iff_witness :
    (heapTwice 0).Name = (heapRel 0).Name
    ∧ ((heapTwice 0).ID ≠ AssetIDNotFound ↔
        ∃ pre ra post,
          ((apiOK listingTwice).ListReleaseAssets ((apiOK listingTwice).NewOAuthedClient optsRel)
            optsRel.OwnerName optsRel.RepoName optsRel.ID).1 = pre ++ ra :: post
          ∧ ra.Name = some (heapRel 0).Name
          ∧ (∀ r ∈ post, r.Name ≠ some (heapRel 0).Name)
          ∧ ra.ID ≠ some AssetIDNotFound)
    ∧ ((∀ r ∈ ((apiOK listingTwice).ListReleaseAssets
            ((apiOK listingTwice).NewOAuthedClient optsRel)
            optsRel.OwnerName optsRel.RepoName optsRel.ID).1, r.ID ≠ some AssetIDNotFound) →
        ((heapTwice 0).ID ≠ AssetIDNotFound ↔
          ∃ ra ∈ ((apiOK listingTwice).ListReleaseAssets
            ((apiOK listingTwice).NewOAuthedClient optsRel)
            optsRel.OwnerName optsRel.RepoName optsRel.ID).1, ra.Name = some (heapRel 0).Name)) :=
  fetchAssetID_found_iff Unit (apiOK listingTwice) [some 0, some 1] optsRel heapRel heapTwice
    (by
      intro p _
      unfold heapRel
      split <;> rfl)
    (by rfl) 0 (by decide)

/-- C2: if the remote listing call returns an error, or it succeeds and the
status check of its response fails, `FetchAssetID` returns that error and
leaves the memory as it was: no ID, name or path of any asset has changed. -/
theorem fetchAssetID_error (Client : Type) (api : API Client) (ps : List AssetPtr)
    (apiOpts : GitHubAPIOpts) (h : Heap) :
    (∀ err, (api.ListReleaseAssets (api.NewOAuthedClient apiOpts) apiOpts.OwnerName
          apiOpts.RepoName apiOpts.ID).2.2 = some err →
        FetchAssetID api ps apiOpts h = GoResult.returned (some err, h))
    ∧ (∀ err, (api.ListReleaseAssets (api.NewOAuthedClient apiOpts) apiOpts.OwnerName
          apiOpts.RepoName apiOpts.ID).2.2 = none →
        api.CheckStatusOK (api.ListReleaseAssets (api.NewOAuthedClient apiOpts)
          apiOpts.OwnerName apiOpts.RepoName apiOpts.ID).2.1 = some err →
        FetchAssetID api ps apiOpts h = GoResult.returned (some err, h)) := by
  unfold FetchAssetID
  dsimp only
  rcases api.ListReleaseAssets (api.NewOAuthedClient apiOpts) apiOpts.OwnerName
    apiOpts.RepoName apiOpts.ID with ⟨ras, res, lerr⟩
  refine ⟨?_, ?_⟩
  · intro err herr
    dsimp only at herr
    subst herr
    rfl
  · intro err herr hcheck
    dsimp only at herr hcheck
    subst herr
    dsimp only
    rw [hcheck]

/-- Witness of C2: a listing call that fails, and a listing call whose
response the status check rejects. -/
theorem fetchAssetID_error_witness :
    FetchAssetID apiListFails [some 0, some 1] optsRel heapRel
        = GoResult.returned (some "server error", heapRel)
    ∧ FetchAssetID apiStatusFails [some 0, some 1] optsRel heapRel
        = GoResult.returned (some "unexpected status", heapRel) :=
  ⟨(fetchAssetID_error Unit apiListFails [some 0, some 1] optsRel heapRel).1 "server error"
      (by rfl),
   (fetchAssetID_error Unit apiStatusFails [some 0, some 1] optsRel heapRel).2
      "unexpected status" (by rfl) (by rfl)⟩

/-- C9: after `FetchAssetID` returns nil, the ID of a candidate is the ID of
the last entry of the listing that carries the name of the candidate,
however many entries before it carry that name too. -/
theorem fetchAssetID_last_match_wins (Client : Type) (api : API Client) (ps : List AssetPtr)
    (apiOpts : GitHubAPIOpts) (h h1 : Heap) (pre post : List ReleaseAsset) (ra : ReleaseAsset)
    (hlist : (api.ListReleaseAssets (api.NewOAuthedClient apiOpts) apiOpts.OwnerName
      apiOpts.RepoName apiOpts.ID).1 = pre ++ ra :: post)
    (hret : FetchAssetID api ps apiOpts h = GoResult.returned (none, h1))
    (p : Nat) (hmem : some p ∈ ps)
    (hname : ra.Name = some (h p).Name)
    (hlast : ∀ r ∈ post, r.Name ≠ some (h p).Name) :
    ra.ID = some (h1 p).ID ∧ (h1 p).Name = (h p).Name := by
  have hrun := fetchAssetID_nil Client api ps apiOpts h h1 hret
  rw [hlist] at hrun
  exact ⟨fetchOuter_last pre post ra ps h h1 hrun p hmem hname hlast,
    (fetchOuter_names _ ps h h1 hrun p).2⟩

/-- Witness of C9: in `listingTwice` the entries with the IDs 7 and 9 both
carry the name `a.tar.gz`; the candidate ends with the ID 9. -/
theorem fetchAssetID_last_match_wins_witness :
    some (9 : Int) = some (heapTwice 0).ID ∧ (heapTwice 0).Name = (heapRel 0).Name :=
  fetchAssetID_last_match_wins Unit (apiOK listingTwice) [some 0, some 1] optsRel heapRel
    heapTwice
    [ReleaseAsset.mk (some 7) (some "a.tar.gz"), ReleaseAsset.mk (some 3) (some "other.zip")]
    [] (ReleaseAsset.mk (some 9) (some "a.tar.gz")) (by rfl) (by rfl) 0 (by decide) (by rfl)
    (by intro r hr; cases hr)

/-! ## DeleteAsset: the claim -/

/-- C7, as stated, fails: the asset has the ID `AssetIDNotFound`, the
remote accepts the delete request, and `DeleteAsset` returns nil. -/
theorem deleteAsset_notFound_counterexample :
    (Asset.mk "rel/b.txt" "b.txt" 0).ID = AssetIDNotFound
    ∧ (DeleteAsset (apiOK []) (Asset.mk "rel/b.txt" "b.txt" 0) optsRel).1 = none
    ∧ (DeleteAsset (apiOK []) (Asset.mk "rel/b.txt" "b.txt" 0) optsRel).2
        = [Event.deleteReleaseAsset "owner" "repo" 0] :=
  ⟨rfl, rfl, rfl⟩

/-- C7, amended: for an asset whose ID is `AssetIDNotFound`, `DeleteAsset`
sends the delete request with that ID and returns what the remote answers:
the error of the delete call when there is one, otherwise the result of the
status check; so it returns an error if and only if the delete call returns
an error or the status check fails. The check of the ID is made by the
caller: no run of the per-asset workflow of `UploadAssets` for such an
asset, whatever the options, the filesystem and the peers, calls
`DeleteAsset` or sends a delete request. -/
theorem deleteAsset_notFound (Client : Type) (api : API Client) (asset : Asset)
    (apiOpts : GitHubAPIOpts) (hid : asset.ID = AssetIDNotFound) :
    (DeleteAsset api asset apiOpts).2
        = [Event.deleteReleaseAsset apiOpts.OwnerName apiOpts.RepoName AssetIDNotFound]
    ∧ (∀ err, (api.DeleteReleaseAsset (api.NewOAuthedClient apiOpts) apiOpts.OwnerName
          apiOpts.RepoName AssetIDNotFound).2 = some err →
        (DeleteAsset api asset apiOpts).1 = some err)
    ∧ ((api.DeleteReleaseAsset (api.NewOAuthedClient apiOpts) apiOpts.OwnerName
          apiOpts.RepoName AssetIDNotFound).2 = none →
        (DeleteAsset api asset apiOpts).1
          = api.CheckStatusNoContent (api.DeleteReleaseAsset (api.NewOAuthedClient apiOpts)
              apiOpts.OwnerName apiOpts.RepoName AssetIDNotFound).1)
    ∧ ((DeleteAsset api asset apiOpts).1 ≠ none ↔
        ((api.DeleteReleaseAsset (api.NewOAuthedClient apiOpts) apiOpts.OwnerName
            apiOpts.RepoName AssetIDNotFound).2 ≠ none
          ∨ api.CheckStatusNoContent (api.DeleteReleaseAsset (api.NewOAuthedClient apiOpts)
              apiOpts.OwnerName apiOpts.RepoName AssetIDNotFound).1 ≠ none))
    ∧ (∀ (fs : FS) (ghrOpts : GhrOpts) (peers : Peers),
        ∀ e ∈ (uploadWorker fs api ghrOpts apiOpts asset peers).events,
          e.isDeleteCall = false ∧ e.isDeleteRequest = false) := by
  have hev := deleteAsset_events Client api asset apiOpts
  rw [hid] at hev
  have hcaller : ∀ (fs : FS) (ghrOpts : GhrOpts) (peers : Peers),
      ∀ e ∈ (uploadWorker fs api ghrOpts apiOpts asset peers).events,
        e.isDeleteCall = false ∧ e.isDeleteRequest = false := by
    intro fs ghrOpts peers
    apply uploadWorker_no_delete
    rw [hid]
    simp
  refine ⟨hev, ?_⟩
  suffices hrest :
      (∀ err, (api.DeleteReleaseAsset (api.NewOAuthedClient apiOpts) apiOpts.OwnerName
            apiOpts.RepoName AssetIDNotFound).2 = some err →
          (DeleteAsset api asset apiOpts).1 = some err)
      ∧ ((api.DeleteReleaseAsset (api.NewOAuthedClient apiOpts) apiOpts.OwnerName
            apiOpts.RepoName AssetIDNotFound).2 = none →
          (DeleteAsset api asset apiOpts).1
            = api.CheckStatusNoContent (api.DeleteReleaseAsset (api.NewOAuthedClient apiOpts)
                apiOpts.OwnerName apiOpts.RepoName AssetIDNotFound).1)
      ∧ ((DeleteAsset api asset apiOpts).1 ≠ none ↔
          ((api.DeleteReleaseAsset (api.NewOAuthedClient apiOpts) apiOpts.OwnerName
              apiOpts.RepoName AssetIDNotFound).2 ≠ none
            ∨ api.CheckStatusNoContent (api.DeleteReleaseAsset (api.NewOAuthedClient apiOpts)
                apiOpts.OwnerName apiOpts.RepoName AssetIDNotFound).1 ≠ none)) from
    ⟨hrest.1, hrest.2.1, hrest.2.2, hcaller⟩
  unfold DeleteAsset
  dsimp only
  rw [hid]
  rcases api.DeleteReleaseAsset (api.NewOAuthedClient apiOpts) apiOpts.OwnerName
    apiOpts.RepoName AssetIDNotFound with ⟨res, derr⟩
  cases derr with
  | some e =>
    dsimp only
    refine ⟨?_, ?_, ?_⟩
    · intro err herr
      rw [← herr]
    · intro hnone
      cases hnone
    · simp
  | none =>
    dsimp only
    cases hc : api.CheckStatusNoContent res with
    | some e =>
      dsimp only
      refine ⟨?_, ?_, ?_⟩
      · intro err herr
        cases herr
      · intro _
        rfl
      · simp
    | none =>
      dsimp only
      refine ⟨?_, ?_, ?_⟩
      · intro err herr
        cases herr
      · intro _
        rfl
      · simp

/-- Witness of C7 (amended): a remote that refuses the delete request, the
error `DeleteAsset` then returns, and a run of the workflow with `Replace`
set, which never asks for the delete. -/
theorem deleteAsset_notFound_witness :
    (DeleteAsset apiDeleteFails (Asset.mk "rel/b.txt" "b.txt" 0) optsRel).1
      = some "404 Not Found"
    ∧ ∀ e ∈ (uploadWorker fsRel apiDeleteFails (GhrOpts.mk 2 true) optsRel
          (Asset.mk "rel/b.txt" "b.txt" 0) peersAll).events,
        e.isDeleteCall = false ∧ e.isDeleteRequest = false :=
  ⟨(deleteAsset_notFound Unit apiDeleteFails (Asset.mk "rel/b.txt" "b.txt" 0) optsRel
      (by rfl)).2.1 "404 Not Found" (by rfl),
   (deleteAsset_notFound Unit apiDeleteFails (Asset.mk "rel/b.txt" "b.txt" 0) optsRel
      (by rfl)).2.2.2.2 fsRel (GhrOpts.mk 2 true) peersAll⟩

end Ghr
